import Mathlib

/-!
Verification development for the Home Assistant client module
(src/ha_client.py). The remote HTTP layer is made explicit: every
function that performs a request is modelled as a function of the
outcome of that request, and Python exceptions are modelled with
the Except monad. JSON attribute values are modelled by AttrVal,
and the configuration dictionary values by PyVal.
-/

/-- A JSON attribute value stored in an entity attribute mapping:
a string or a number (the two shapes the module touches:
friendly_name and unit_of_measurement are strings, brightness is
a number). -/
inductive AttrVal where
  | str (s : String)
  | num (n : Int)
deriving DecidableEq

/-- EntityState: one record of the catalog returned by the server at
/api/states, as in section 3 of the spec and as consumed by
find_entity and find_entity_attr: an entity_id of the form
domain.object_id, a state string and an open attribute mapping. -/
structure EntityState where
  entity_id : String
  state : String
  attributes : List (String × AttrVal)
deriving DecidableEq

/-- ResolvedEntity: the dictionary built by find_entity at lines
109-115 and 121-127 of ha_client.py. -/
structure ResolvedEntity where
  id : String
  dev_name : String
  state : String
  best_score : Nat
  attributes : List (String × AttrVal)
deriving DecidableEq

/-- Exceptions the module can raise or catch: the requests-level
errors (Timeout, ConnectionError, HTTPError from raise_for_status,
any other RequestException) and the builtin lookup and attribute
errors that are programming-level. -/
inductive HAExc where
  | timeout
  | connError
  | httpError (code : Nat)
  | reqError
  | keyError (key : String)
  | attrError
deriving DecidableEq

/-- Whether the except clause of connected (line 83 of ha_client.py,
catching Timeout, ConnectionError and RequestException) catches the
exception: it catches every requests-level error, and not the
builtin KeyError or AttributeError programming errors. -/
def HAExc.isRequestsLevel : HAExc → Bool
  | .timeout => true
  | .connError => true
  | .httpError _ => true
  | .reqError => true
  | .keyError _ => false
  | .attrError => false

/-- Outcome of one HTTP request: either the transport raised an
exception, or the server answered with a status code and a body. -/
inductive HttpOutcome (α : Type) where
  | response (status : Nat) (body : α)
  | raised (e : HAExc)
deriving DecidableEq

/-- Python str.lower applied characterwise, as in the calls
state.attributes.friendly_name.lower() and entity_id.lower() in
find_entity. -/
def pyLower (s : String) : String :=
  ⟨s.data.map Char.toLower⟩

/-- The domain of an entity id: entity_id.split(".")[0] at line 100
of ha_client.py, i.e. the characters before the first dot. -/
def splitDot0 (s : String) : String :=
  ⟨s.data.takeWhile (fun c => c ≠ '.')⟩

/-- Python startswith on character lists, used to model
entity_id.startswith at line 146 of ha_client.py. -/
def startsWithL : List Char → List Char → Bool
  | _, [] => true
  | [], _ :: _ => false
  | a :: as, b :: bs => a = b && startsWithL as bs

/-- Modelled from the spec: the token normalization step of the
scoring function (section 4.2, step 3a): lower-case the string and
replace every non word character by a space. The underscore counts
as a word character. -/
def cleanStr (s : String) : List Char :=
  (s.data.map Char.toLower).map
    (fun c => if c.isAlphanum || c = '_' then c else ' ')

/-- Modelled from the spec: split into word tokens on spaces,
dropping empty tokens. -/
def splitWSAux : List Char → List Char → List (List Char)
  | [], acc => if acc = [] then [] else [acc.reverse]
  | c :: cs, acc =>
    if c = ' ' then
      if acc = [] then splitWSAux cs []
      else acc.reverse :: splitWSAux cs []
    else splitWSAux cs (c :: acc)

/-- Split a character list into its word tokens. -/
def splitWS (l : List Char) : List (List Char) :=
  splitWSAux l []

/-- Lexicographic comparison of tokens by character code, matching
how Python sorted orders strings. -/
def lexLe : List Char → List Char → Bool
  | [], _ => true
  | _ :: _, [] => false
  | a :: as, b :: bs => if a = b then lexLe as bs else decide (a < b)

/-- Insert a token into a sorted token list (stable insertion). -/
def insertTok (t : List Char) : List (List Char) → List (List Char)
  | [] => [t]
  | u :: us => if lexLe t u then t :: u :: us else u :: insertTok t us

/-- Modelled from the spec: sort the word tokens alphabetically
(section 4.2, step 3a). -/
def sortToks : List (List Char) → List (List Char)
  | [] => []
  | t :: ts => insertTok t (sortToks ts)

/-- Rejoin tokens with single spaces. -/
def joinSp : List (List Char) → List Char
  | [] => []
  | [t] => t
  | t :: ts => t ++ ' ' :: joinSp ts

/-- Modelled from the spec: the full token-sort normalization of one
string: clean, split into word tokens, sort them, rejoin with
spaces. -/
def tokenSort (s : String) : List Char :=
  joinSp (sortToks (splitWS (cleanStr s)))

/-- Length of the longest common prefix of two character lists. -/
def commonPrefixLen : List Char → List Char → Nat
  | a :: as, b :: bs => if a = b then commonPrefixLen as bs + 1 else 0
  | _, _ => 0

/-- Modelled from the spec: the longest matching block of two
character lists, Ratcliff-Obershelp style: among all pairs of start
positions, the one with the longest common run, preferring the
earliest position in the first list and then in the second. Returns
(i, j, k) with k the run length. -/
def bestBlock (a b : List Char) : Nat × Nat × Nat :=
  ((List.range a.length).flatMap
    (fun i => (List.range b.length).map
      (fun j => (i, j, commonPrefixLen (a.drop i) (b.drop j))))).foldl
    (fun best c => if c.2.2 > best.2.2 then c else best) (0, 0, 0)

/-- Modelled from the spec: total number of matching characters of
the Ratcliff-Obershelp decomposition: take the longest matching
block and recurse on the pieces to its left and to its right. The
first argument is recursion fuel, always sufficient when the call
starts with fuel above the length of the first list. -/
def roMatches : Nat → List Char → List Char → Nat
  | 0, _, _ => 0
  | fuel + 1, a, b =>
    let m := bestBlock a b
    if m.2.2 = 0 then 0
    else
      roMatches fuel (a.take m.1) (b.take m.2.1) + m.2.2 +
        roMatches fuel (a.drop (m.1 + m.2.2)) (b.drop (m.2.1 + m.2.2))

/-- Modelled from the spec: the percentage similarity of two
character lists: 200 M / (la + lb) rounded to the nearest integer
(two equal empty strings score 100). -/
def simPercent (a b : List Char) : Nat :=
  let t := a.length + b.length
  if t = 0 then 100
  else (200 * roMatches (a.length + 1) a b + t / 2) / t

/-- Modelled from the spec: the token-order-insensitive similarity
score of section 4.2 step 3a, standing for fuzz.token_sort_ratio of
the source: normalize both strings by token sorting, then take the
percentage similarity. -/
def tokenSortScore (a b : String) : Nat :=
  simPercent (tokenSort a) (tokenSort b)

/-- First fuzzy comparison of find_entity (lines 104-115 of
ha_client.py): score the utterance against the lower-cased friendly
name and, when the score strictly exceeds the running best, record
the candidate. The scorer f is the partially applied
tokenSortScore of the utterance. -/
def scan_step1 (f : String → Nat) (st : EntityState) (fn : String)
    (bs : Nat) (best : Option ResolvedEntity) : Nat × Option ResolvedEntity :=
  let score := f (pyLower fn)
  if score > bs then
    (score, some ⟨st.entity_id, fn, st.state, score, st.attributes⟩)
  else (bs, best)

/-- Second fuzzy comparison of find_entity (lines 116-127 of
ha_client.py): score the utterance against the lower-cased raw
entity id under the same strictly-greater update rule. -/
def scan_step2 (f : String → Nat) (st : EntityState) (fn : String) :
    Nat × Option ResolvedEntity → Nat × Option ResolvedEntity
  | (bs, best) =>
    let score := f (pyLower st.entity_id)
    if score > bs then
      (score, some ⟨st.entity_id, fn, st.state, score, st.attributes⟩)
    else (bs, best)

/-- One iteration of the find_entity loop (lines 98-129 of
ha_client.py): filter by domain, look up the friendly name (a
missing key is the caught KeyError and skips the entity; a
non-string value makes the .lower() call raise an uncaught
AttributeError), then run both fuzzy comparisons. -/
def scan_step (f : String → Nat) (types : List String) (st : EntityState)
    (bs : Nat) (best : Option ResolvedEntity) :
    Except HAExc (Nat × Option ResolvedEntity) :=
  if splitDot0 st.entity_id ∈ types then
    match st.attributes.lookup "friendly_name" with
    | none => Except.ok (bs, best)
    | some (AttrVal.num _) => Except.error HAExc.attrError
    | some (AttrVal.str fn) =>
      Except.ok (scan_step2 f st fn (scan_step1 f st fn bs best))
  else Except.ok (bs, best)

/-- The find_entity scan over the catalog, threading the running
best score and candidate; a per-entity uncaught exception aborts
the whole call. -/
def scan_core (f : String → Nat) (types : List String) :
    List EntityState → Nat → Option ResolvedEntity →
    Except HAExc (Option ResolvedEntity)
  | [], _, best => Except.ok best
  | st :: rest, bs, best =>
    match scan_step f types st bs best with
    | Except.error e => Except.error e
    | Except.ok (bs', best') => scan_core f types rest bs' best'

/-- find_entity (lines 86-130 of ha_client.py), as a function of the
catalog returned by _get_state: best_score starts at 50,
best_entity at none, and the catalog is scanned in order. -/
def find_entity (json_data : List EntityState) (entity : String)
    (types : List String) : Except HAExc (Option ResolvedEntity) :=
  scan_core (fun s => tokenSortScore entity s) types json_data 50 none

/-- AttributeSummary: the dictionary built by find_entity_attr at
lines 158-162 of ha_client.py. -/
structure EntityAttr where
  unit_measure : AttrVal
  name : AttrVal
  state : String
deriving DecidableEq

/-- The unit computation of find_entity_attr (lines 145-152 of
ha_client.py): brightness for an entity id starting with light.,
unit_of_measurement otherwise; the try/except around it turns a
missing key into the empty string. -/
def unitOf (st : EntityState) : AttrVal :=
  if startsWithL st.entity_id.data "light.".data then
    (st.attributes.lookup "brightness").getD (AttrVal.str "")
  else
    (st.attributes.lookup "unit_of_measurement").getD (AttrVal.str "")

/-- find_entity_attr (lines 132-164 of ha_client.py), as a function
of the catalog returned by _get_state: linear scan for the first
exact entity_id match; on a match, the unit is computed by unitOf,
and the friendly_name lookup at line 156 is outside the try/except,
so a missing friendly name raises KeyError to the caller. -/
def find_entity_attr : List EntityState → String →
    Except HAExc (Option EntityAttr)
  | [], _ => Except.ok none
  | st :: rest, entity =>
    if st.entity_id = entity then
      match st.attributes.lookup "friendly_name" with
      | none => Except.error (HAExc.keyError "friendly_name")
      | some nm =>
        Except.ok (some ⟨unitOf st, nm, st.state⟩)
    else find_entity_attr rest entity

/-- A Python value of the configuration mapping handed to the
constructor: None, a boolean, a string or an integer. -/
inductive PyVal where
  | vnone
  | vbool (b : Bool)
  | vstr (s : String)
  | vint (n : Int)
deriving DecidableEq

/-- Python truthiness of a configuration value. -/
def PyVal.truthy : PyVal → Bool
  | .vnone => false
  | .vbool b => b
  | .vstr s => decide (s ≠ "")
  | .vint n => decide (n ≠ 0)

/-- Python str() of a configuration value, for f-string
interpolation in the url. -/
def PyVal.pystr : PyVal → String
  | .vnone => "None"
  | .vbool b => if b then "True" else "False"
  | .vstr s => s
  | .vint n => toString n

/-- The state a constructed client carries. -/
structure HAClient where
  ssl : PyVal
  verify : PyVal
  url : String
  headers : List (String × String)
deriving DecidableEq

/-- HomeAssistantClient.__init__ (lines 45-60 of ha_client.py): the
fields are read by subscript in order ssl, verify, ip_address,
token, port_number, so a missing key raises KeyError; ssl keeps a
truthy value and otherwise becomes False; verify keeps a truthy
value and otherwise becomes True; the url is built from the ssl
truthiness, the ip address and, when truthy, the port. -/
def client_init (config : List (String × PyVal)) : Except HAExc HAClient :=
  match config.lookup "ssl" with
  | none => Except.error (HAExc.keyError "ssl")
  | some sslv =>
  match config.lookup "verify" with
  | none => Except.error (HAExc.keyError "verify")
  | some verv =>
  match config.lookup "ip_address" with
  | none => Except.error (HAExc.keyError "ip_address")
  | some ipv =>
  match config.lookup "token" with
  | none => Except.error (HAExc.keyError "token")
  | some tokv =>
  match config.lookup "port_number" with
  | none => Except.error (HAExc.keyError "port_number")
  | some portv =>
    let ssl := if sslv.truthy then sslv else PyVal.vbool false
    let verify := if verv.truthy then verv else PyVal.vbool true
    let url0 := if ssl.truthy then "https://" ++ ipv.pystr
                else "http://" ++ ipv.pystr
    let url := if portv.truthy then url0 ++ ":" ++ portv.pystr else url0
    Except.ok ⟨ssl, verify, url,
      [("Authorization", "Bearer " ++ tokv.pystr),
       ("Content-Type", "application/json")]⟩

/-- _get_state (lines 62-76 of ha_client.py) as a function of the
outcome of the GET request: propagate a raised exception; otherwise
raise_for_status raises HTTPError exactly for the 4xx and 5xx
status codes and the decoded body is returned. -/
def get_state {α : Type} (o : HttpOutcome α) : Except HAExc α :=
  match o with
  | .raised e => Except.error e
  | .response code body =>
    if 400 ≤ code ∧ code < 600 then Except.error (HAExc.httpError code)
    else Except.ok body

/-- connected (lines 78-84 of ha_client.py): call _get_state, return
True on success; the except clause catches Timeout, ConnectionError
and RequestException and returns False; any other exception
propagates. -/
def connected {α : Type} (o : HttpOutcome α) : Except HAExc Bool :=
  match get_state o with
  | Except.ok _ => Except.ok true
  | Except.error e =>
    if e.isRequestsLevel then Except.ok false else Except.error e

/-- execute_service (lines 166-182 of ha_client.py) as a function of
the outcome of the POST request: propagate a raised exception;
otherwise raise_for_status raises HTTPError exactly for the 4xx and
5xx status codes, and the raw response (status and body) is
returned unchanged. -/
def execute_service {α : Type} (o : HttpOutcome α) :
    Except HAExc (Nat × α) :=
  match o with
  | .raised e => Except.error e
  | .response code body =>
    if 400 ≤ code ∧ code < 600 then Except.error (HAExc.httpError code)
    else Except.ok (code, body)

/-! ## Helper predicates and lemmas about the find_entity scan -/

/-- An entity takes part in the fuzzy comparison: its domain is
allowed and its friendly name is present as a string. -/
def eligible (types : List String) (st : EntityState) : Bool :=
  decide (splitDot0 st.entity_id ∈ types) &&
    (match st.attributes.lookup "friendly_name" with
     | some (AttrVal.str _) => true
     | _ => false)

/-- The better of the two fuzzy scores of an eligible entity under
the scorer f (zero for an ineligible one). -/
def entityBest (f : String → Nat) (st : EntityState) : Nat :=
  match st.attributes.lookup "friendly_name" with
  | some (AttrVal.str fn) => max (f (pyLower fn)) (f (pyLower st.entity_id))
  | _ => 0

lemma scan_step_cases (f : String → Nat) (types : List String)
    (st : EntityState) (bs : Nat) (best : Option ResolvedEntity)
    (bs' : Nat) (best' : Option ResolvedEntity)
    (h : scan_step f types st bs best = Except.ok (bs', best')) :
    (bs' = bs ∧ best' = best ∧
      (eligible types st = false ∨ entityBest f st ≤ bs))
    ∨ (eligible types st = true ∧ bs < bs' ∧ bs' = entityBest f st ∧
       ∃ fn, st.attributes.lookup "friendly_name" = some (AttrVal.str fn) ∧
         best' = some ⟨st.entity_id, fn, st.state, bs', st.attributes⟩) := by
  unfold scan_step at h
  by_cases hdom : splitDot0 st.entity_id ∈ types
  · rw [if_pos hdom] at h
    cases hfn : st.attributes.lookup "friendly_name" with
    | none =>
      rw [hfn] at h
      injection h with h
      injection h with h1 h2
      left
      exact ⟨h1.symm, h2.symm, Or.inl (by simp [eligible, hfn])⟩
    | some v =>
      cases v with
      | num n => rw [hfn] at h; cases h
      | str fn =>
        rw [hfn] at h
        injection h with h
        have hel : eligible types st = true := by simp [eligible, hfn, hdom]
        have hbst : entityBest f st =
            max (f (pyLower fn)) (f (pyLower st.entity_id)) := by
          simp [entityBest, hfn]
        unfold scan_step1 scan_step2 at h
        simp only at h
        by_cases h1 : f (pyLower fn) > bs
        · rw [if_pos h1] at h
          simp only at h
          by_cases h2 : f (pyLower st.entity_id) > f (pyLower fn)
          · rw [if_pos h2] at h
            injection h with ha hb
            right
            refine ⟨hel, by omega, by rw [hbst]; omega, fn, rfl, ?_⟩
            rw [← hb, ← ha]
          · rw [if_neg h2] at h
            injection h with ha hb
            right
            refine ⟨hel, by omega, by rw [hbst]; omega, fn, rfl, ?_⟩
            rw [← hb, ← ha]
        · rw [if_neg h1] at h
          simp only at h
          by_cases h2 : f (pyLower st.entity_id) > bs
          · rw [if_pos h2] at h
            injection h with ha hb
            right
            refine ⟨hel, by omega, by rw [hbst]; omega, fn, rfl, ?_⟩
            rw [← hb, ← ha]
          · rw [if_neg h2] at h
            injection h with ha hb
            left
            exact ⟨ha.symm, hb.symm, Or.inr (by rw [hbst]; omega)⟩
  · rw [if_neg hdom] at h
    injection h with h
    injection h with h1 h2
    left
    exact ⟨h1.symm, h2.symm, Or.inl (by simp [eligible, hdom])⟩

lemma scan_core_spec (f : String → Nat) (types : List String) :
    ∀ (data : List EntityState) (bs : Nat) (best : Option ResolvedEntity)
      (res : Option ResolvedEntity),
    scan_core f types data bs best = Except.ok res →
    (res = best ∧
      ∀ st ∈ data, eligible types st = true → entityBest f st ≤ bs)
    ∨ (∃ r, res = some r ∧ bs < r.best_score ∧
        ∃ i, ∃ hi : i < data.length,
          eligible types (data.get ⟨i, hi⟩) = true ∧
          r.id = (data.get ⟨i, hi⟩).entity_id ∧
          r.attributes = (data.get ⟨i, hi⟩).attributes ∧
          r.best_score = entityBest f (data.get ⟨i, hi⟩) ∧
          (∀ j, ∀ hj : j < data.length, j < i →
            eligible types (data.get ⟨j, hj⟩) = true →
            entityBest f (data.get ⟨j, hj⟩) < r.best_score) ∧
          (∀ j, ∀ hj : j < data.length,
            eligible types (data.get ⟨j, hj⟩) = true →
            entityBest f (data.get ⟨j, hj⟩) ≤ r.best_score)) := by
  intro data
  induction data with
  | nil =>
    intro bs best res h
    injection h with h
    exact Or.inl ⟨h.symm, by intro st hst; cases hst⟩
  | cons st rest ih =>
    intro bs best res h
    cases hstep : scan_step f types st bs best with
    | error e => simp only [scan_core, hstep] at h; cases h
    | ok p =>
      obtain ⟨bs', best'⟩ := p
      simp only [scan_core, hstep] at h
      rcases scan_step_cases f types st bs best bs' best' hstep with
        ⟨hbs, hbest, hskip⟩ | ⟨hel, hlt, hbs, fn, hfn, hbest⟩
      · rcases ih bs' best' res h with ⟨hres, hall⟩ | hupd
        · left
          refine ⟨by rw [hres, hbest], ?_⟩
          intro st' hmem hel'
          rcases List.mem_cons.mp hmem with heq | hmem'
          · subst heq
            rcases hskip with hbad | hle
            · rw [hel'] at hbad; cases hbad
            · omega
          · have := hall st' hmem' hel'
            omega
        · right
          obtain ⟨r, hres, hgt, i, hi, hieli, hid, hattr, hsc, hfirst, hmax⟩ := hupd
          refine ⟨r, hres, by omega, i + 1, Nat.succ_lt_succ hi,
            hieli, hid, hattr, hsc, ?_, ?_⟩
          · intro j hj hji hel'
            cases j with
            | zero =>
              have h0 : (st :: rest).get ⟨0, hj⟩ = st := rfl
              rw [h0] at hel' ⊢
              rcases hskip with hbad | hle
              · rw [hel'] at hbad; cases hbad
              · omega
            | succ q =>
              have h1 : (st :: rest).get ⟨q + 1, hj⟩ =
                  rest.get ⟨q, Nat.lt_of_succ_lt_succ hj⟩ := rfl
              rw [h1] at hel' ⊢
              exact hfirst q _ (by omega) hel'
          · intro j hj hel'
            cases j with
            | zero =>
              have h0 : (st :: rest).get ⟨0, hj⟩ = st := rfl
              rw [h0] at hel' ⊢
              rcases hskip with hbad | hle
              · rw [hel'] at hbad; cases hbad
              · omega
            | succ q =>
              have h1 : (st :: rest).get ⟨q + 1, hj⟩ =
                  rest.get ⟨q, Nat.lt_of_succ_lt_succ hj⟩ := rfl
              rw [h1] at hel' ⊢
              exact hmax q _ hel'
      · rcases ih bs' best' res h with ⟨hres, hall⟩ | hupd
        · right
          refine ⟨⟨st.entity_id, fn, st.state, bs', st.attributes⟩,
            by rw [hres, hbest], by simpa using hlt, 0, Nat.succ_pos _,
            hel, rfl, rfl, by simpa using hbs, ?_, ?_⟩
          · intro j hj hj0 hel'
            exact absurd hj0 (Nat.not_lt_zero j)
          · intro j hj hel'
            cases j with
            | zero =>
              have h0 : (st :: rest).get ⟨0, hj⟩ = st := rfl
              rw [h0] at hel' ⊢
              simp only
              omega
            | succ q =>
              have h1 : (st :: rest).get ⟨q + 1, hj⟩ =
                  rest.get ⟨q, Nat.lt_of_succ_lt_succ hj⟩ := rfl
              rw [h1] at hel' ⊢
              have := hall _ (List.get_mem rest q (Nat.lt_of_succ_lt_succ hj)) hel'
              simp only
              omega
        · right
          obtain ⟨r, hres, hgt, i, hi, hieli, hid, hattr, hsc, hfirst, hmax⟩ := hupd
          refine ⟨r, hres, by omega, i + 1, Nat.succ_lt_succ hi,
            hieli, hid, hattr, hsc, ?_, ?_⟩
          · intro j hj hji hel'
            cases j with
            | zero =>
              have h0 : (st :: rest).get ⟨0, hj⟩ = st := rfl
              rw [h0] at hel' ⊢
              omega
            | succ q =>
              have h1 : (st :: rest).get ⟨q + 1, hj⟩ =
                  rest.get ⟨q, Nat.lt_of_succ_lt_succ hj⟩ := rfl
              rw [h1] at hel' ⊢
              exact hfirst q _ (by omega) hel'
          · intro j hj hel'
            cases j with
            | zero =>
              have h0 : (st :: rest).get ⟨0, hj⟩ = st := rfl
              rw [h0] at hel' ⊢
              omega
            | succ q =>
              have h1 : (st :: rest).get ⟨q + 1, hj⟩ =
                  rest.get ⟨q, Nat.lt_of_succ_lt_succ hj⟩ := rfl
              rw [h1] at hel' ⊢
              exact hmax q _ hel'

/-! ## Claim theorems about the Entity Resolver -/

/-- A two-entity catalog used to exercise the resolver on concrete
inputs: both entities carry the friendly name ab, so both attain
the same maximum score. -/
def witnessCatalog : List EntityState :=
  [⟨"light.a", "on", [("friendly_name", AttrVal.str "ab")]⟩,
   ⟨"light.b", "off", [("friendly_name", AttrVal.str "ab")]⟩]

/-- The candidate find_entity returns on witnessCatalog for the
utterance ab: the first of the two tied entities. -/
def witnessResolved : ResolvedEntity :=
  ⟨"light.a", "ab", "on", 100, [("friendly_name", AttrVal.str "ab")]⟩

/-- C1: for every entity catalog and every utterance, find_entity
never returns a candidate whose score is less than or equal to 50:
whenever the call returns a candidate, its best_score strictly
exceeds the floor of 50. -/
theorem find_entity_score_above_floor (json_data : List EntityState)
    (entity : String) (types : List String) (r : ResolvedEntity)
    (h : find_entity json_data entity types = Except.ok (some r)) :
    50 < r.best_score := by
  rcases scan_core_spec (fun s => tokenSortScore entity s) types
      json_data 50 none (some r) h with ⟨hres, -⟩ | ⟨q, hq, hgt, -⟩
  · cases hres
  · injection hq with hq
    rw [hq]
    exact hgt

/-- C1 witness: on a concrete catalog the resolver returns a
candidate, and the theorem yields its score bound. -/
theorem find_entity_score_above_floor_witness :
    50 < witnessResolved.best_score :=
  find_entity_score_above_floor witnessCatalog "ab" ["light"]
    witnessResolved rfl

lemma tokenSort_swap :
    tokenSort "temperature outside" = tokenSort "outside temperature" := by
  decide

/-- C2: the selection of find_entity is invariant under word-token
reordering of the utterance: for every catalog and domain set,
resolving temperature outside and resolving outside temperature
give the same result, because the scoring function sorts the word
tokens of both strings before taking the similarity. -/
theorem find_entity_token_order_invariant (json_data : List EntityState)
    (types : List String) :
    find_entity json_data "temperature outside" types =
      find_entity json_data "outside temperature" types := by
  unfold find_entity
  have key : (fun s => tokenSortScore "temperature outside" s) =
      (fun s => tokenSortScore "outside temperature" s) := by
    funext s
    unfold tokenSortScore
    rw [tokenSort_swap]
  rw [key]

/-- The property that r comes from an entity of the catalog that is
the first one, in scan order, to attain the maximum fuzzy score of
the whole scan: its score is the maximum over all eligible
entities, every eligible entity before it scores strictly lower,
and a later entity that merely ties never replaces it. -/
def firstMaxSpec (data : List EntityState) (entity : String)
    (types : List String) (r : ResolvedEntity) : Prop :=
  ∃ i, ∃ hi : i < data.length,
    eligible types (data.get ⟨i, hi⟩) = true ∧
    r.id = (data.get ⟨i, hi⟩).entity_id ∧
    r.best_score =
      entityBest (fun s => tokenSortScore entity s) (data.get ⟨i, hi⟩) ∧
    (∀ j, ∀ hj : j < data.length, j < i →
      eligible types (data.get ⟨j, hj⟩) = true →
      entityBest (fun s => tokenSortScore entity s) (data.get ⟨j, hj⟩) <
        r.best_score) ∧
    (∀ j, ∀ hj : j < data.length,
      eligible types (data.get ⟨j, hj⟩) = true →
      entityBest (fun s => tokenSortScore entity s) (data.get ⟨j, hj⟩) ≤
        r.best_score)

/-- C3: for every catalog in its server order and every utterance,
find_entity returns the candidate of the first entity in scan order
that attains the maximum score: both updates use strict
greater-than against the running best, so a later entity that ties
never replaces the recorded candidate. -/
theorem find_entity_first_max_wins (json_data : List EntityState)
    (entity : String) (types : List String) (r : ResolvedEntity)
    (h : find_entity json_data entity types = Except.ok (some r)) :
    firstMaxSpec json_data entity types r := by
  rcases scan_core_spec (fun s => tokenSortScore entity s) types
      json_data 50 none (some r) h with ⟨hres, -⟩ |
      ⟨q, hq, -, i, hi, hel, hid, -, hsc, hfirst, hmax⟩
  · cases hres
  · injection hq with hq
    subst hq
    exact ⟨i, hi, hel, hid, hsc, hfirst, hmax⟩

/-- C3 witness: on a catalog with two entities tied at the maximum
score, the returned candidate is the first one. -/
theorem find_entity_first_max_wins_witness :
    firstMaxSpec witnessCatalog "ab" ["light"] witnessResolved :=
  find_entity_first_max_wins witnessCatalog "ab" ["light"]
    witnessResolved rfl

lemma scan_core_filtered (f : String → Nat) (types : List String) :
    ∀ (data : List EntityState) (bs : Nat) (best : Option ResolvedEntity),
    (∀ st ∈ data, splitDot0 st.entity_id ∉ types) →
    scan_core f types data bs best = Except.ok best := by
  intro data
  induction data with
  | nil => intro bs best _; rfl
  | cons st rest ih =>
    intro bs best h
    have hdom : splitDot0 st.entity_id ∉ types :=
      h st (List.mem_cons_self st rest)
    have hstep : scan_step f types st bs best = Except.ok (bs, best) := by
      unfold scan_step
      rw [if_neg hdom]
    simp only [scan_core, hstep]
    exact ih bs best (fun st' hmem => h st' (List.mem_cons_of_mem st hmem))

/-- C8: for every catalog and utterance, find_entity returns none
when the allowed-domains set contains the domain of no entity (the
part of its id before the first dot), however similar any name or
id is to the utterance; in particular an empty domain set always
gives none. -/
theorem find_entity_domain_filtered_none (json_data : List EntityState)
    (entity : String) (types : List String)
    (h : ∀ st ∈ json_data, splitDot0 st.entity_id ∉ types) :
    find_entity json_data entity types = Except.ok none :=
  scan_core_filtered (fun s => tokenSortScore entity s) types
    json_data 50 none h

/-- C8 witness: with an empty domain set, a catalog holding an exact
textual match still resolves to none. -/
theorem find_entity_domain_filtered_none_witness :
    find_entity witnessCatalog "ab" [] = Except.ok none :=
  find_entity_domain_filtered_none witnessCatalog "ab" []
    (by intro st _; simp)

/-- A catalog whose first entity lacks a friendly name although its
raw id matches the utterance exactly; the second entity has a
friendly name. -/
def mixedCatalog : List EntityState :=
  [⟨"ab", "on", []⟩,
   ⟨"light.b", "off", [("friendly_name", AttrVal.str "ab")]⟩]

/-- The candidate find_entity returns on mixedCatalog for the
utterance ab: the second entity, because the first is skipped
before its raw id is ever compared. -/
def mixedResolved : ResolvedEntity :=
  ⟨"light.b", "ab", "off", 100, [("friendly_name", AttrVal.str "ab")]⟩

lemma eligible_friendly_str (types : List String) (st : EntityState)
    (h : eligible types st = true) :
    ∃ s, st.attributes.lookup "friendly_name" = some (AttrVal.str s) := by
  unfold eligible at h
  cases hfn : st.attributes.lookup "friendly_name" with
  | none => rw [hfn] at h; simp at h
  | some v =>
    cases v with
    | num n => rw [hfn] at h; simp at h
    | str s => exact ⟨s, rfl⟩

/-- C10: any entity returned by find_entity has a friendly_name key
in its attributes: an entity lacking it is skipped by the caught
KeyError before its raw-id comparison runs, so it can never be the
result. -/
theorem find_entity_result_has_friendly_name (json_data : List EntityState)
    (entity : String) (types : List String) (r : ResolvedEntity)
    (h : find_entity json_data entity types = Except.ok (some r)) :
    ∃ s, r.attributes.lookup "friendly_name" = some (AttrVal.str s) := by
  rcases scan_core_spec (fun s => tokenSortScore entity s) types
      json_data 50 none (some r) h with ⟨hres, -⟩ |
      ⟨q, hq, -, i, hi, hel, -, hattr, -⟩
  · cases hres
  · injection hq with hq
    subst hq
    rw [hattr]
    exact eligible_friendly_str types (json_data.get ⟨i, hi⟩) hel

/-- C10 witness: the first entity of mixedCatalog matches the
utterance perfectly by raw id but has no friendly name, and the
returned candidate is the second entity, which has one. -/
theorem find_entity_result_has_friendly_name_witness :
    ∃ s, mixedResolved.attributes.lookup "friendly_name" =
      some (AttrVal.str s) :=
  find_entity_result_has_friendly_name mixedCatalog "ab" ["ab", "light"]
    mixedResolved rfl

/-! ## Claims about error handling in the two scanners -/

/-- Whether the friendly_name entry of an entity, when present, is a
string (absence is allowed: the resolver catches that KeyError and
skips the record). -/
def fnIsStrOrMissing (st : EntityState) : Bool :=
  match st.attributes.lookup "friendly_name" with
  | none => true
  | some (AttrVal.str _) => true
  | some (AttrVal.num _) => false

lemma scan_step_no_error (f : String → Nat) (types : List String)
    (st : EntityState) (bs : Nat) (best : Option ResolvedEntity)
    (hfn : fnIsStrOrMissing st = true) :
    ∃ p, scan_step f types st bs best = Except.ok p := by
  unfold scan_step
  by_cases hdom : splitDot0 st.entity_id ∈ types
  · rw [if_pos hdom]
    unfold fnIsStrOrMissing at hfn
    cases hv : st.attributes.lookup "friendly_name" with
    | none => exact ⟨_, rfl⟩
    | some v =>
      cases v with
      | str s => exact ⟨_, rfl⟩
      | num n => rw [hv] at hfn; cases hfn
  · rw [if_neg hdom]
    exact ⟨_, rfl⟩

lemma scan_core_no_error (f : String → Nat) (types : List String) :
    ∀ (data : List EntityState) (bs : Nat) (best : Option ResolvedEntity),
    (∀ st ∈ data, fnIsStrOrMissing st = true) →
    ∃ res, scan_core f types data bs best = Except.ok res := by
  intro data
  induction data with
  | nil => intro bs best _; exact ⟨best, rfl⟩
  | cons st rest ih =>
    intro bs best h
    obtain ⟨⟨bs', best'⟩, hstep⟩ := scan_step_no_error f types st bs best
      (h st (List.mem_cons_self st rest))
    obtain ⟨res, hres⟩ :=
      ih bs' best' (fun st' hm => h st' (List.mem_cons_of_mem st hm))
    exact ⟨res, by simp only [scan_core, hstep]; exact hres⟩

lemma find_entity_attr_no_error :
    ∀ (data : List EntityState) (ent : String),
    (∀ st ∈ data, st.entity_id = ent →
      (st.attributes.lookup "friendly_name").isSome = true) →
    ∃ res, find_entity_attr data ent = Except.ok res := by
  intro data
  induction data with
  | nil => intro ent _; exact ⟨none, rfl⟩
  | cons st rest ih =>
    intro ent h
    by_cases heq : st.entity_id = ent
    · have hv := h st (List.mem_cons_self st rest) heq
      cases hv2 : st.attributes.lookup "friendly_name" with
      | none => rw [hv2] at hv; cases hv
      | some nm =>
        refine ⟨some ⟨unitOf st, nm, st.state⟩, ?_⟩
        simp only [find_entity_attr]
        rw [if_pos heq, hv2]
    · obtain ⟨res, hres⟩ :=
        ih ent (fun st' hm hid => h st' (List.mem_cons_of_mem st hm) hid)
      refine ⟨res, ?_⟩
      simp only [find_entity_attr]
      rw [if_neg heq]
      exact hres

/-- A catalog with one malformed record: the entity matched by id
has no friendly_name key. -/
def malformedCatalog : List EntityState :=
  [⟨"light.x", "on", [("brightness", AttrVal.num 5)]⟩]

/-- C4 counterexample: find_entity_attr does let a missing
friendly_name surface as a caller-visible failure: on a catalog
whose matching record lacks friendly_name, the lookup at line 156
of ha_client.py is outside the try/except and the call raises
KeyError instead of returning a result or none. -/
theorem find_entity_attr_keyerror_escapes :
    find_entity_attr malformedCatalog "light.x" =
      Except.error (HAExc.keyError "friendly_name") := rfl

/-- C4 amended: find_entity treats a missing friendly_name as
skip-and-continue and never fails when every present friendly_name
value is a string; find_entity_attr tolerates a missing unit
attribute (the empty-string unit) but needs a friendly_name on the
record matched by id: under that condition it returns without
raising. -/
theorem skip_and_continue_amended :
    (∀ (data : List EntityState) (entity : String) (types : List String),
      (∀ st ∈ data, fnIsStrOrMissing st = true) →
      ∃ res, find_entity data entity types = Except.ok res)
    ∧ (∀ (data : List EntityState) (ent : String),
      (∀ st ∈ data, st.entity_id = ent →
        (st.attributes.lookup "friendly_name").isSome = true) →
      ∃ res, find_entity_attr data ent = Except.ok res) :=
  ⟨fun data entity types h =>
    scan_core_no_error (fun s => tokenSortScore entity s) types data 50 none h,
   fun data ent h => find_entity_attr_no_error data ent h⟩

/-- C4 witness: a catalog containing a record without friendly_name
still resolves without failure, and an attribute read whose matched
record has a friendly name returns without failure. -/
theorem skip_and_continue_amended_witness :
    (∃ res, find_entity mixedCatalog "ab" ["ab", "light"] = Except.ok res)
    ∧ (∃ res, find_entity_attr witnessCatalog "light.a" = Except.ok res) :=
  ⟨skip_and_continue_amended.1 mixedCatalog "ab" ["ab", "light"] (by decide),
   skip_and_continue_amended.2 witnessCatalog "light.a" (by decide)⟩

/-! ## Claims about the constructor and the HTTP layer -/

/-- A configuration mapping with every field except ssl. -/
def configMissingSsl : List (String × PyVal) :=
  [("verify", PyVal.vbool false), ("ip_address", PyVal.vstr "127.0.0.1"),
   ("token", PyVal.vstr "t"), ("port_number", PyVal.vint 8123)]

/-- C5 counterexample: the constructor does not tolerate an absent
field: with ssl missing from the configuration mapping, the
subscript at line 46 of ha_client.py raises KeyError and no client
with boolean ssl and verify fields is produced. -/
theorem client_init_missing_ssl_raises :
    client_init configMissingSsl = Except.error (HAExc.keyError "ssl") := rfl

/-- C5 amended: when construction succeeds (all five keys present),
a falsy ssl value resolves to False and a truthy one is kept
unchanged, a falsy verify value (including an explicit False, which
is silently overridden) resolves to True and a truthy one is kept;
hence boolean inputs give boolean fields, but an absent key raises
a lookup error instead. -/
theorem client_init_ssl_verify_amended (config : List (String × PyVal))
    (c : HAClient) (h : client_init config = Except.ok c) :
    (∀ v, config.lookup "ssl" = some v →
      c.ssl = (if v.truthy then v else PyVal.vbool false))
    ∧ (∀ v, config.lookup "verify" = some v →
      c.verify = (if v.truthy then v else PyVal.vbool true))
    ∧ (∀ b, config.lookup "ssl" = some (PyVal.vbool b) →
      c.ssl = PyVal.vbool b)
    ∧ (∀ b, config.lookup "verify" = some (PyVal.vbool b) →
      c.verify = PyVal.vbool true) := by
  unfold client_init at h
  cases h1 : config.lookup "ssl" with
  | none => rw [h1] at h; cases h
  | some sslv =>
  rw [h1] at h
  cases h2 : config.lookup "verify" with
  | none => rw [h2] at h; cases h
  | some verv =>
  rw [h2] at h
  cases h3 : config.lookup "ip_address" with
  | none => rw [h3] at h; cases h
  | some ipv =>
  rw [h3] at h
  cases h4 : config.lookup "token" with
  | none => rw [h4] at h; cases h
  | some tokv =>
  rw [h4] at h
  cases h5 : config.lookup "port_number" with
  | none => rw [h5] at h; cases h
  | some portv =>
  rw [h5] at h
  injection h with h
  subst h
  refine ⟨?_, ?_, ?_, ?_⟩
  · intro v hv
    injection hv with hv
    subst hv
    rfl
  · intro v hv
    injection hv with hv
    subst hv
    rfl
  · intro b hb
    injection hb with hb
    subst hb
    cases b <;> rfl
  · intro b hb
    injection hb with hb
    subst hb
    cases b <;> rfl

/-- A full configuration with an explicit verify set to False. -/
def configVerifyFalse : List (String × PyVal) :=
  [("ssl", PyVal.vbool false), ("verify", PyVal.vbool false),
   ("ip_address", PyVal.vstr "1.2.3.4"), ("token", PyVal.vstr "t"),
   ("port_number", PyVal.vint 0)]

/-- The client configVerifyFalse constructs. -/
def clientVerifyFalse : HAClient :=
  ⟨PyVal.vbool false, PyVal.vbool true, "http://1.2.3.4",
   [("Authorization", "Bearer t"), ("Content-Type", "application/json")]⟩

/-- C5 witness: an explicit False verify is overridden to True while
a False ssl stays False. -/
theorem client_init_ssl_verify_amended_witness :
    clientVerifyFalse.verify = PyVal.vbool true ∧
    clientVerifyFalse.ssl = PyVal.vbool false :=
  ⟨(client_init_ssl_verify_amended configVerifyFalse clientVerifyFalse
      rfl).2.2.2 false rfl,
   (client_init_ssl_verify_amended configVerifyFalse clientVerifyFalse
      rfl).2.2.1 false rfl⟩

/-- C6: connected returns true exactly when the state fetch
succeeds, whatever the payload; it returns false exactly when the
fetch raises a requests-level transport error (timeout, connection
failure, HTTP status error or other request exception, i.e. the
errors of the except clause); and a programming-level error is not
converted to false but propagates. -/
lemma connected_of_ok {α : Type} (o : HttpOutcome α) (body : α)
    (h : get_state o = Except.ok body) : connected o = Except.ok true := by
  unfold connected
  rw [h]

lemma connected_of_error {α : Type} (o : HttpOutcome α) (e : HAExc)
    (h : get_state o = Except.error e) :
    connected o =
      if e.isRequestsLevel then Except.ok false else Except.error e := by
  unfold connected
  rw [h]

theorem connected_trichotomy {α : Type} (o : HttpOutcome α) :
    (connected o = Except.ok true ↔ ∃ body, get_state o = Except.ok body)
    ∧ (connected o = Except.ok false ↔
        ∃ e, get_state o = Except.error e ∧ e.isRequestsLevel = true)
    ∧ (∀ e, get_state o = Except.error e → e.isRequestsLevel = false →
        connected o = Except.error e) := by
  cases hg : get_state o with
  | ok body =>
    have hc := connected_of_ok o body hg
    refine ⟨⟨fun _ => ⟨body, rfl⟩, fun _ => hc⟩, ⟨?_, ?_⟩, ?_⟩
    · intro hh
      rw [hc] at hh
      exact Bool.noConfusion (Except.ok.inj hh)
    · rintro ⟨e, he, -⟩
      exact Except.noConfusion he
    · intro e he hrf
      exact Except.noConfusion he
  | error e =>
    have hc := connected_of_error o e hg
    by_cases hr : e.isRequestsLevel = true
    · rw [if_pos hr] at hc
      refine ⟨⟨?_, ?_⟩, ⟨fun _ => ⟨e, rfl, hr⟩, fun _ => hc⟩, ?_⟩
      · intro hh
        rw [hc] at hh
        exact Bool.noConfusion (Except.ok.inj hh)
      · rintro ⟨body, hb⟩
        exact Except.noConfusion hb
      · intro e2 he2 hrf
        injection he2 with he2
        subst he2
        rw [hr] at hrf
        exact Bool.noConfusion hrf
    · rw [if_neg hr] at hc
      refine ⟨⟨?_, ?_⟩, ⟨?_, ?_⟩, ?_⟩
      · intro hh
        rw [hc] at hh
        exact Except.noConfusion hh
      · rintro ⟨body, hb⟩
        exact Except.noConfusion hb
      · intro hh
        rw [hc] at hh
        exact Except.noConfusion hh
      · rintro ⟨e2, he2, hre2⟩
        injection he2 with he2
        subst he2
        exact absurd hre2 hr
      · intro e2 he2 hrf
        injection he2 with he2
        subst he2
        exact hc

/-- C6 witness: a timeout gives false, a success gives true whatever
the payload, and a programming-level KeyError propagates. -/
theorem connected_trichotomy_witness :
    connected (HttpOutcome.raised (HAExc.keyError "x") :
        HttpOutcome (List EntityState)) =
      Except.error (HAExc.keyError "x") :=
  (connected_trichotomy (HttpOutcome.raised (HAExc.keyError "x") :
      HttpOutcome (List EntityState))).2.2
    (HAExc.keyError "x") rfl rfl

/-- C7: whenever find_entity_attr finds an entity whose id matches
exactly, the returned unit_measure is computed by unitOf on the
matched record: the brightness attribute when the id starts with
light. and unit_of_measurement otherwise, and the empty string (not
an error) when the selected attribute is absent. -/
theorem find_entity_attr_unit_rule :
    ∀ (data : List EntityState) (ent : String) (r : EntityAttr),
    find_entity_attr data ent = Except.ok (some r) →
    ∃ st, st ∈ data ∧ st.entity_id = ent ∧ r.unit_measure = unitOf st := by
  intro data
  induction data with
  | nil => intro ent r h; cases h
  | cons st rest ih =>
    intro ent r h
    simp only [find_entity_attr] at h
    by_cases heq : st.entity_id = ent
    · rw [if_pos heq] at h
      cases hfn : st.attributes.lookup "friendly_name" with
      | none => rw [hfn] at h; cases h
      | some nm =>
        rw [hfn] at h
        injection h with h
        injection h with h
        refine ⟨st, List.mem_cons_self st rest, heq, ?_⟩
        rw [← h]
    · rw [if_neg heq] at h
      obtain ⟨st', hmem, hid, hunit⟩ := ih ent r h
      exact ⟨st', List.mem_cons_of_mem st hmem, hid, hunit⟩

/-- A one-light catalog with brightness 80 and no
unit_of_measurement. -/
def lampCatalog : List EntityState :=
  [⟨"light.lamp", "on", [("brightness", AttrVal.num 80),
     ("friendly_name", AttrVal.str "Lamp")]⟩]

/-- C7 witness: reading the attributes of the light with brightness
80 and no unit_of_measurement yields unit_measure 80, not the empty
string. -/
theorem find_entity_attr_unit_rule_witness :
    ∃ st, st ∈ lampCatalog ∧ st.entity_id = "light.lamp" ∧
      (⟨AttrVal.num 80, AttrVal.str "Lamp", "on"⟩ : EntityAttr).unit_measure =
        unitOf st :=
  find_entity_attr_unit_rule lampCatalog "light.lamp"
    ⟨AttrVal.num 80, AttrVal.str "Lamp", "on"⟩ rfl

/-- C9 counterexample: execute_service does not raise for every
non-2xx status: a 304 response is outside the 4xx and 5xx ranges
checked by raise_for_status, so the call returns the response
instead of raising. -/
theorem execute_service_304_no_raise :
    execute_service (HttpOutcome.response 304 ([] : List EntityState)) =
      Except.ok (304, []) := rfl

/-- C9 amended: execute_service raises the HTTP-status error exactly
when the response status is in the 4xx or 5xx range (e.g. 404), and
otherwise (including 200 and also the non-2xx codes below 400 or
above 599) returns the raw response with its status unchanged; a
transport exception propagates; the call performs a single request
with no retry, modelled by consuming exactly one transport
outcome. -/
theorem execute_service_status_amended (α : Type) (code : Nat) (body : α) :
    (400 ≤ code ∧ code < 600 →
      execute_service (HttpOutcome.response code body) =
        Except.error (HAExc.httpError code))
    ∧ (¬(400 ≤ code ∧ code < 600) →
      execute_service (HttpOutcome.response code body) =
        Except.ok (code, body))
    ∧ (∀ e, execute_service (HttpOutcome.raised e : HttpOutcome α) =
        Except.error e) := by
  refine ⟨?_, ?_, ?_⟩
  · intro hc
    show (if 400 ≤ code ∧ code < 600 then
        Except.error (HAExc.httpError code)
      else Except.ok (code, body)) = Except.error (HAExc.httpError code)
    rw [if_pos hc]
  · intro hc
    show (if 400 ≤ code ∧ code < 600 then
        Except.error (HAExc.httpError code)
      else Except.ok (code, body)) = Except.ok (code, body)
    rw [if_neg hc]
  · intro e
    rfl

/-- C9 witness: a 404 raises the status error and a 200 returns the
response with status 200 and no error. -/
theorem execute_service_status_amended_witness :
    execute_service (HttpOutcome.response 404 ([] : List EntityState)) =
      Except.error (HAExc.httpError 404)
    ∧ execute_service (HttpOutcome.response 200 ([] : List EntityState)) =
      Except.ok (200, []) :=
  ⟨(execute_service_status_amended (List EntityState) 404 []).1 (by omega),
   (execute_service_status_amended (List EntityState) 200 []).2.1 (by omega)⟩
